import Mathlib

/-!
Verification of the immutable backup system (backup-agent publisher and
backup-extractor service) against its natural-language specification.

The definitions below are a shallow embedding of the two Python source
files:
  src/backup-agent/backup.py      (class ImmutableBackupAgent)
  src/backup-extractor/extractor.py (class BackupExtractor)

Modelling conventions:
  - File system content is passed in explicitly: a class directory of the
    active store is a listing of manifest files (filename paired with the
    parsed manifest) together with the data files present in it, where a
    data file is abstracted to its byte length and its streamed SHA-256
    content hash (the checksum engine is deterministic, so a file is
    represented by the hash it would produce).
  - The JSON ledger file is an optional SyncState value (none when the
    state file does not exist).
  - Audit log writes are collected into lists of AuditEvent values, in
    the order the source appends them.
  - Fallible steps of the publisher (subprocess calls, file writes) are
    supplied as Except values in a PublishEnv record; raising an
    exception corresponds to the error case.
  - Python string comparison used by sorted() is lexicographic on code
    points; it is embedded as lexLe on the character list of the string,
    because the builtin String order does not reduce in the kernel.
-/

namespace BackupSystem

/-- Lexicographic order on character lists, as Python compares strings. -/
def lexLe : List Char → List Char → Bool
  | [], _ => true
  | _ :: _, [] => false
  | a :: as, b :: bs => if a < b then true else if b < a then false else lexLe as bs

/-- Lexicographic order on strings (code-point order, as in Python). -/
def strLe (a b : String) : Bool := lexLe a.data b.data

/-- Parsed content of a .manifest.json file, the fields written by
ImmutableBackupAgent.create_backup step 4. -/
structure Manifest where
  filename : String
  timestamp : String
  type : String
  size_bytes : Nat
  sha256 : String
  database : String
  created_at : String
  immutable : Bool
  version : String
deriving DecidableEq, Repr

/-- A data file on disk, abstracted to the two observations the extractor
makes of it: its stat size and the SHA-256 hash its bytes stream to. -/
structure FSFile where
  size : Nat
  checksum : String
deriving DecidableEq, Repr

/-- Listing of one class directory of the active store: the manifest files
(glob *.manifest.json, unsorted directory order) and the data files. -/
structure TypeDir where
  manifests : List (String × Manifest)
  files : List (String × FSFile)
deriving DecidableEq, Repr

/-- The active store: one optional directory per backup class; none means
the directory does not exist and the scan skips the class. -/
structure Store where
  hourly : Option TypeDir
  daily : Option TypeDir
  weekly : Option TypeDir
deriving DecidableEq, Repr

/-- Directory lookup by class name, as active_dir / backup_type. -/
def storeDir (s : Store) : String → Option TypeDir
  | "hourly" => s.hourly
  | "daily" => s.daily
  | "weekly" => s.weekly
  | _ => none

/-- Content of the ledger file /backups/extracted/.last_sync.json. The
total_extracted field is absent (none) until the first save writes it. -/
structure SyncState where
  extracted : List String
  last_sync : Option String
  total_extracted : Option Nat
deriving DecidableEq, Repr

/-- BackupExtractor._load_last_sync: parse the state file when it exists,
otherwise the empty default dictionary. -/
def _load_last_sync (stateFile : Option SyncState) : SyncState :=
  match stateFile with
  | some s => s
  | none => { extracted := [], last_sync := none, total_extracted := none }

/-- BackupExtractor._save_last_sync: read-modify-write of the ledger;
extends the extracted list with the new checksums, stamps last_sync and
recomputes total_extracted. -/
def _save_last_sync (stateFile : Option SyncState) (new_checksums : List String)
    (now : String) : SyncState :=
  let state := _load_last_sync stateFile
  let extracted := state.extracted ++ new_checksums
  { extracted := extracted
    last_sync := some now
    total_extracted := some extracted.length }

/-- Audit log records written by either pipeline, identified by their
event field and the payload fields the source serialises. -/
inductive AuditEvent
  | backup_created (manifest : Manifest)
  | backup_failed (backup_type : String) (error : String)
  | backup_removed (filename : String) (backup_type : String)
  | verification_failed (backup : String) (sha256 : String)
  | extracted (backup : String) (sha256 : String) (destination : String)
deriving DecidableEq, Repr

/-- Lookup of a file by name in a directory listing, as Path.exists plus
stat plus streaming read would observe it. -/
def findFile (files : List (String × FSFile)) (name : String) : Option FSFile :=
  (files.find? (fun p => p.1 == name)).map (fun p => p.2)

/-- BackupExtractor._verify_backup: existence check, then size comparison
against size_bytes, then recomputed checksum against sha256. Total
function: every mismatch returns false, nothing raises. -/
def _verify_backup (backup_file : Option FSFile) (manifest : Manifest) : Bool :=
  match backup_file with
  | none => false
  | some f =>
    if f.size ≠ manifest.size_bytes then false
    else if f.checksum ≠ manifest.sha256 then false
    else true

/-- Stable insertion of one manifest entry into a name-sorted list. -/
def insertSorted (x : String × Manifest) :
    List (String × Manifest) → List (String × Manifest)
  | [] => [x]
  | y :: ys => if strLe x.1 y.1 then x :: y :: ys else y :: insertSorted x ys

/-- Embedding of sorted() over the glob result: stable sort of the
manifest entries by filename in lexicographic order. -/
def sortManifests : List (String × Manifest) → List (String × Manifest)
  | [] => []
  | x :: xs => insertSorted x (sortManifests xs)

/-- Outcome of the loop body of scan_and_extract for one manifest file:
skipped by the ledger check, rejected by verification, or extracted. -/
inductive ItemStatus
  | skipped
  | verifyFailed
  | extractedNow
deriving DecidableEq, Repr

/-- One processed manifest file of a scan pass: the class it came from,
the manifest filename, the parsed manifest and what happened to it. -/
structure ScanItem where
  backup_type : String
  mfile : String
  manifest : Manifest
  status : ItemStatus
deriving DecidableEq, Repr

/-- Loop body of scan_and_extract for a single manifest file. The ledger
check is against last_sync as loaded at scan start (the source never
refreshes last_sync inside the loop), so the decision depends only on the
entry itself, the directory content and that fixed list. -/
def processManifest (lastExtracted : List String) (dir : TypeDir)
    (backup_type : String) (entry : String × Manifest) : ScanItem :=
  let manifest := entry.2
  if manifest.sha256 ∈ lastExtracted then
    ⟨backup_type, entry.1, manifest, ItemStatus.skipped⟩
  else if _verify_backup (findFile dir.files manifest.filename) manifest = false then
    ⟨backup_type, entry.1, manifest, ItemStatus.verifyFailed⟩
  else
    ⟨backup_type, entry.1, manifest, ItemStatus.extractedNow⟩

/-- Scan of one class directory: the manifest files in sorted filename
order, each processed by the loop body; a missing directory contributes
nothing. -/
def scanDir (lastExtracted : List String) (backup_type : String) :
    Option TypeDir → List ScanItem
  | none => []
  | some dir =>
      (sortManifests dir.manifests).map (processManifest lastExtracted dir backup_type)

/-- Full pass of the scan loop: the three classes in the fixed source
order hourly, daily, weekly. -/
def scanStore (store : Store) (lastExtracted : List String) : List ScanItem :=
  scanDir lastExtracted "hourly" store.hourly ++
  scanDir lastExtracted "daily" store.daily ++
  scanDir lastExtracted "weekly" store.weekly

/-- The new_backups list accumulated by a pass: the sha256 of every
extracted manifest, in processing order. -/
def new_backupsOf (items : List ScanItem) : List String :=
  items.filterMap (fun it =>
    if it.status = ItemStatus.extractedNow then some it.manifest.sha256 else none)

/-- Destination path of an external copy, external/class/date/filename
with the date the first ten characters of the manifest timestamp. -/
def destPath (backup_type : String) (m : Manifest) : String :=
  backup_type ++ "/" ++ (m.timestamp.take 10) ++ "/" ++ m.filename

/-- Audit log records appended by one scan pass, in order: one
verification_failed record per rejected manifest and one extracted record
per external copy. -/
def scanEvents (items : List ScanItem) : List AuditEvent :=
  items.filterMap (fun it =>
    match it.status with
    | ItemStatus.skipped => none
    | ItemStatus.verifyFailed =>
        some (AuditEvent.verification_failed it.manifest.filename it.manifest.sha256)
    | ItemStatus.extractedNow =>
        some (AuditEvent.extracted it.manifest.filename it.manifest.sha256
          (destPath it.backup_type it.manifest)))

/-- Manifests handed to _verify_backup during a pass: everything that
survived the ledger check. -/
def verifiedManifests (items : List ScanItem) : List Manifest :=
  items.filterMap (fun it =>
    if it.status = ItemStatus.skipped then none else some it.manifest)

/-- Manifest filenames in the order the pass processes them. -/
def scanOrder (store : Store) (lastExtracted : List String) : List String :=
  (scanStore store lastExtracted).map (fun it => it.mfile)

/-- Data file names copied to external storage for a given class during a
pass; the source copies type_dir / manifest filename field. -/
def copiedArtifacts (backup_type : String) (items : List ScanItem) : List String :=
  items.filterMap (fun it =>
    if it.backup_type = backup_type ∧ it.status = ItemStatus.extractedNow then
      some it.manifest.filename
    else none)

/-- BackupExtractor.scan_and_extract: one pass over the active store.
Returns the processed items and the ledger file after the pass; the
source saves only when new_backups is non-empty, otherwise the state file
is left untouched. -/
def scan_and_extract (store : Store) (stateFile : Option SyncState) (now : String) :
    List ScanItem × Option SyncState :=
  let lastExtracted := (_load_last_sync stateFile).extracted
  let items := scanStore store lastExtracted
  let nb := new_backupsOf items
  (items, if nb.isEmpty then stateFile else some (_save_last_sync stateFile nb now))

/-- Content hashes declared by the manifests of one optional directory. -/
def dirHashes : Option TypeDir → List String
  | none => []
  | some d => d.manifests.map (fun e => e.2.sha256)

/-- Content hashes declared by all manifests of the active store. -/
def storeHashes (store : Store) : List String :=
  dirHashes store.hourly ++ dirHashes store.daily ++ dirHashes store.weekly

/-- Retention policy of _cleanup_old_backups: the retention_days
dictionary with dict.get default 7 for an unknown class. -/
def retention_days (backup_type : String) : Nat :=
  if backup_type = "hourly" then 2
  else if backup_type = "daily" then 7
  else if backup_type = "weekly" then 28
  else 7

/-- Cutoff instant of a sweep, in seconds: now minus the retention period
of the class, as datetime.now minus timedelta(days) and .timestamp(). -/
def cutoff_timestamp (now : Int) (backup_type : String) : Int :=
  now - (retention_days backup_type : Int) * 86400

/-- One artifact matched by glob *.sql.gz in a class directory: its name,
its stat st_mtime in seconds, and whether deleting it together with its
sidecar and manifest completes without raising (unlinkOk false stands for
an exception anywhere inside the per-candidate try block). -/
structure SweepEntry where
  name : String
  mtime : Int
  unlinkOk : Bool
deriving DecidableEq, Repr

/-- Result of a retention sweep: the returned counter, the audit records
appended, and the console warnings printed for failed candidates. -/
structure CleanupResult where
  removed_count : Nat
  events : List AuditEvent
  warnings : List String
deriving DecidableEq, Repr

/-- Loop of _cleanup_old_backups over the glob result: a candidate is an
entry with st_mtime strictly below the cutoff; a successful removal
increments the counter and appends one backup_removed record; a raising
removal prints a warning and the loop continues with the next entry. -/
def sweepLoop (co : Int) (backup_type : String) : List SweepEntry → CleanupResult
  | [] => ⟨0, [], []⟩
  | f :: rest =>
    if f.mtime < co then
      if f.unlinkOk then
        let r := sweepLoop co backup_type rest
        ⟨r.removed_count + 1,
         AuditEvent.backup_removed f.name backup_type :: r.events, r.warnings⟩
      else
        let r := sweepLoop co backup_type rest
        ⟨r.removed_count, r.events, ("Failed to cleanup " ++ f.name) :: r.warnings⟩
    else sweepLoop co backup_type rest

/-- ImmutableBackupAgent._cleanup_old_backups: returns 0 for a missing
class directory, otherwise sweeps the glob result. -/
def _cleanup_old_backups (now : Int) (backup_type : String)
    (dir : Option (List SweepEntry)) : CleanupResult :=
  match dir with
  | none => ⟨0, [], []⟩
  | some entries => sweepLoop (cutoff_timestamp now backup_type) backup_type entries

/-- Mutations of the active store performed by create_backup step 5, in
source order: the atomic rename of the artifact, then the sidecar write,
then the manifest write. -/
inductive StoreOp
  | renameArtifact
  | writeSidecar
  | writeManifest
deriving DecidableEq, Repr

/-- Outcomes of the fallible steps of one create_backup run, in the order
the source performs them. An error value carries the message of the
exception that step would raise; ok means the step completes. The chattr
outcomes only influence console output and the cleanup directory feeds
step 8. -/
structure PublishEnv where
  dump : Except String Unit
  compress : Except String Unit
  checksum : Except String String
  size_bytes : Except String Nat
  rename : Except String Unit
  writeChecksum : Except String Unit
  writeManifest : Except String Unit
  immutableOk : Bool × Bool × Bool
  cleanupDir : Option (List SweepEntry)
deriving Repr

/-- Observable outcome of one create_backup run: the audit records
appended to the log file, the mutations applied to the active store, and
the returned manifest or the propagated exception. -/
structure BackupResult where
  audit : List AuditEvent
  storeOps : List StoreOp
  result : Except String Manifest
deriving Repr

/-- ImmutableBackupAgent.create_backup: the try block runs the steps in
order and any exception reaches the except clause, which appends one
backup_failed record and re-raises. On success the manifest of step 4 is
logged as backup_created (step 7) and the retention sweep of step 8
appends its backup_removed records afterwards. -/
def create_backup (backup_type : String) (timestamp : String) (database : String)
    (created_at : String) (now : Int) (env : PublishEnv) : BackupResult :=
  let filename := timestamp ++ ".sql.gz"
  match env.dump with
  | Except.error e => ⟨[AuditEvent.backup_failed backup_type e], [], Except.error e⟩
  | Except.ok _ =>
  match env.compress with
  | Except.error e => ⟨[AuditEvent.backup_failed backup_type e], [], Except.error e⟩
  | Except.ok _ =>
  match env.checksum with
  | Except.error e => ⟨[AuditEvent.backup_failed backup_type e], [], Except.error e⟩
  | Except.ok checksum =>
  match env.size_bytes with
  | Except.error e => ⟨[AuditEvent.backup_failed backup_type e], [], Except.error e⟩
  | Except.ok size =>
  let manifest : Manifest :=
    { filename := filename
      timestamp := timestamp
      type := backup_type
      size_bytes := size
      sha256 := checksum
      database := database
      created_at := created_at
      immutable := true
      version := "1.0" }
  match env.rename with
  | Except.error e => ⟨[AuditEvent.backup_failed backup_type e], [], Except.error e⟩
  | Except.ok _ =>
  match env.writeChecksum with
  | Except.error e =>
      ⟨[AuditEvent.backup_failed backup_type e], [StoreOp.renameArtifact], Except.error e⟩
  | Except.ok _ =>
  match env.writeManifest with
  | Except.error e =>
      ⟨[AuditEvent.backup_failed backup_type e],
       [StoreOp.renameArtifact, StoreOp.writeSidecar], Except.error e⟩
  | Except.ok _ =>
  let cleanup := _cleanup_old_backups now backup_type env.cleanupDir
  ⟨AuditEvent.backup_created manifest :: cleanup.events,
   [StoreOp.renameArtifact, StoreOp.writeSidecar, StoreOp.writeManifest],
   Except.ok manifest⟩

/-- Manifest filenames of one class directory in the sorted order the
scan visits them. -/
def dirOrder : Option TypeDir → List String
  | none => []
  | some d => (sortManifests d.manifests).map (fun e => e.1)

/-- Names mentioned by the backup_removed records of a sweep result. -/
def removedNamesOf (r : CleanupResult) : List String :=
  r.events.filterMap (fun ev =>
    match ev with
    | AuditEvent.backup_removed n _ => some n
    | _ => none)

/-- Relation ordering manifest entries by filename. -/
def nameLe (x y : String × Manifest) : Prop := strLe x.1 y.1 = true

/-- Manifest entries of an optional class directory (empty for a missing
directory). -/
def dirManifests : Option TypeDir → List (String × Manifest)
  | none => []
  | some d => d.manifests

/-- Two manifests that declare the same content hash under different
filenames, with both data files intact: the scenario of a byte-identical
backup published twice in the hourly class. -/
def c1m1 : Manifest :=
  ⟨"a.sql.gz", "2026-01-18_00-00-00", "hourly", 4, "h", "app_db",
   "2026-01-18T00:00:00+00:00", true, "1.0"⟩

def c1m2 : Manifest :=
  ⟨"b.sql.gz", "2026-01-18_01-00-00", "hourly", 4, "h", "app_db",
   "2026-01-18T01:00:00+00:00", true, "1.0"⟩

def c1store : Store :=
  ⟨some ⟨[("a.sql.gz.manifest.json", c1m1), ("b.sql.gz.manifest.json", c1m2)],
    [("a.sql.gz", ⟨4, "h"⟩), ("b.sql.gz", ⟨4, "h"⟩)]⟩, none, none⟩

/-- A store with one valid manifest whose hash is already in the ledger. -/
def c1wm : Manifest :=
  ⟨"a.sql.gz", "2026-01-18_00-00-00", "hourly", 4, "h1", "app_db",
   "2026-01-18T00:00:00+00:00", true, "1.0"⟩

def c1wstore : Store :=
  ⟨some ⟨[("a.sql.gz.manifest.json", c1wm)], [("a.sql.gz", ⟨4, "h1"⟩)]⟩, none, none⟩

def c1wstate : Option SyncState :=
  some ⟨["h1"], some "2026-01-17T00:00:00+00:00", some 1⟩

/-- A manifest whose declared size disagrees with the data file on disk,
so verification fails on every pass. -/
def c2m : Manifest :=
  ⟨"a.sql.gz", "2026-01-18_00-00-00", "hourly", 10, "h2", "app_db",
   "2026-01-18T00:00:00+00:00", true, "1.0"⟩

def c2store : Store :=
  ⟨some ⟨[("a.sql.gz.manifest.json", c2m)], [("a.sql.gz", ⟨5, "h2"⟩)]⟩, none, none⟩

def c2item : ScanItem :=
  ⟨"hourly", "a.sql.gz.manifest.json", c2m, ItemStatus.verifyFailed⟩

/-- A store whose hourly manifest filename sorts after the daily one, so
the cross-class processing order is not globally lexicographic. -/
def c3mh : Manifest :=
  ⟨"b.sql.gz", "2026-01-18_02-00-00", "hourly", 4, "h3a", "app_db",
   "2026-01-18T02:00:00+00:00", true, "1.0"⟩

def c3md : Manifest :=
  ⟨"a.sql.gz", "2026-01-18_01-00-00", "daily", 4, "h3b", "app_db",
   "2026-01-18T01:00:00+00:00", true, "1.0"⟩

def c3store : Store :=
  ⟨some ⟨[("b.sql.gz.manifest.json", c3mh)], []⟩,
   some ⟨[("a.sql.gz.manifest.json", c3md)], []⟩, none⟩

/-- Sweep input with one stale artifact, one exactly at the cutoff and
one fresh artifact; now = 1000000 with hourly cutoff 1000000 - 172800. -/
def c4entries : List SweepEntry :=
  [⟨"old.sql.gz", 827199, true⟩, ⟨"edge.sql.gz", 827200, true⟩,
   ⟨"new.sql.gz", 1000000, true⟩]

/-- A fully successful publish run whose retention sweep removes one
stale artifact. -/
def c5env : PublishEnv :=
  ⟨Except.ok (), Except.ok (), Except.ok "abc123", Except.ok 2048, Except.ok (),
   Except.ok (), Except.ok (), (true, true, true),
   some [⟨"stale.sql.gz", -200000, true⟩]⟩

/-- The manifest the c5env run builds and returns. -/
def c5manifest : Manifest :=
  ⟨"2026-01-18_00-00-00.sql.gz", "2026-01-18_00-00-00", "hourly", 2048, "abc123",
   "app_db", "2026-01-18T00:00:10+00:00", true, "1.0"⟩

/-- A fully successful publish run with no retention candidates. -/
def c6env : PublishEnv :=
  ⟨Except.ok (), Except.ok (), Except.ok "def456", Except.ok 1024, Except.ok (),
   Except.ok (), Except.ok (), (true, true, true), none⟩

/-- A store with one manifest that fails verification by a checksum
mismatch. -/
def c8m : Manifest :=
  ⟨"a.sql.gz", "2026-01-18_00-00-00", "hourly", 5, "hgood", "app_db",
   "2026-01-18T00:00:00+00:00", true, "1.0"⟩

def c8store : Store :=
  ⟨some ⟨[("a.sql.gz.manifest.json", c8m)], [("a.sql.gz", ⟨5, "hbad"⟩)]⟩, none, none⟩

def c8item : ScanItem :=
  ⟨"hourly", "a.sql.gz.manifest.json", c8m, ItemStatus.verifyFailed⟩

/-- A store holding one manifested artifact plus a stray data file that
no manifest references, as after a crash between rename and manifest
write. -/
def c9m : Manifest :=
  ⟨"a.sql.gz", "2026-01-18_00-00-00", "hourly", 4, "h9", "app_db",
   "2026-01-18T00:00:00+00:00", true, "1.0"⟩

def c9store : Store :=
  ⟨some ⟨[("a.sql.gz.manifest.json", c9m)],
    [("a.sql.gz", ⟨4, "h9"⟩), ("ghost.sql.gz", ⟨7, "hg"⟩)]⟩, none, none⟩

section OrderLemmas

theorem lexLe_total : ∀ as bs : List Char, lexLe as bs = true ∨ lexLe bs as = true := by
  intro as
  induction as with
  | nil => intro bs; left; rfl
  | cons a as ih =>
    intro bs
    cases bs with
    | nil => right; rfl
    | cons b bs =>
      by_cases hab : a < b
      · left; simp [lexLe, hab]
      · by_cases hba : b < a
        · right; simp [lexLe, hba]
        · rcases ih bs with h | h
          · left; simp [lexLe, hab, hba, h]
          · right; simp [lexLe, hab, hba, h]

theorem lexLe_cons (a b : Char) (as bs : List Char) :
    lexLe (a :: as) (b :: bs) =
      if a < b then true else if b < a then false else lexLe as bs := rfl

theorem lexLe_trans :
    ∀ as bs cs : List Char, lexLe as bs = true → lexLe bs cs = true →
      lexLe as cs = true := by
  intro as
  induction as with
  | nil => intro bs cs _ _; rfl
  | cons a as ih =>
    intro bs cs hab hbc
    cases bs with
    | nil => simp [lexLe] at hab
    | cons b bs =>
      cases cs with
      | nil => simp [lexLe] at hbc
      | cons c cs =>
        rw [lexLe_cons] at hab hbc ⊢
        by_cases h1 : a < b
        · by_cases h2 : b < c
          · rw [if_pos (lt_trans h1 h2)]
          · by_cases h3 : c < b
            · rw [if_neg h2, if_pos h3] at hbc; exact absurd hbc (by simp)
            · have hbc2 : b = c := le_antisymm (le_of_not_lt h3) (le_of_not_lt h2)
              subst hbc2
              rw [if_pos h1]
        · by_cases h1b : b < a
          · rw [if_neg h1, if_pos h1b] at hab; exact absurd hab (by simp)
          · have hab2 : a = b := le_antisymm (le_of_not_lt h1b) (le_of_not_lt h1)
            subst hab2
            rw [if_neg h1, if_neg h1b] at hab
            by_cases h2 : a < c
            · rw [if_pos h2]
            · by_cases h3 : c < a
              · rw [if_neg h2, if_pos h3] at hbc; exact absurd hbc (by simp)
              · rw [if_neg h2, if_neg h3] at hbc ⊢
                exact ih bs cs hab hbc

theorem strLe_total (a b : String) : strLe a b = true ∨ strLe b a = true :=
  lexLe_total a.data b.data

theorem strLe_trans {a b c : String} (h1 : strLe a b = true) (h2 : strLe b c = true) :
    strLe a c = true :=
  lexLe_trans a.data b.data c.data h1 h2

theorem insertSorted_cons (x y : String × Manifest) (ys : List (String × Manifest)) :
    insertSorted x (y :: ys) =
      if strLe x.1 y.1 then x :: y :: ys else y :: insertSorted x ys := rfl

theorem mem_insertSorted {a x : String × Manifest} :
    ∀ {l : List (String × Manifest)}, a ∈ insertSorted x l ↔ a = x ∨ a ∈ l := by
  intro l
  induction l with
  | nil => simp [insertSorted]
  | cons y ys ih =>
    rw [insertSorted_cons]
    by_cases h : strLe x.1 y.1
    · rw [if_pos h]
      simp only [List.mem_cons]
    · rw [if_neg h]
      simp only [List.mem_cons, ih]
      tauto

theorem insertSorted_perm (x : String × Manifest) :
    ∀ l : List (String × Manifest), List.Perm (insertSorted x l) (x :: l) := by
  intro l
  induction l with
  | nil => simp [insertSorted]
  | cons y ys ih =>
    rw [insertSorted_cons]
    by_cases h : strLe x.1 y.1
    · rw [if_pos h]
    · rw [if_neg h]
      exact (ih.cons y).trans (List.Perm.swap x y ys)

theorem sortManifests_perm :
    ∀ l : List (String × Manifest), List.Perm (sortManifests l) l := by
  intro l
  induction l with
  | nil => simp [sortManifests]
  | cons x xs ih =>
    exact (insertSorted_perm x (sortManifests xs)).trans (ih.cons x)

theorem mem_sortManifests {a : String × Manifest} {l : List (String × Manifest)} :
    a ∈ sortManifests l ↔ a ∈ l :=
  (sortManifests_perm l).mem_iff

theorem insertSorted_pairwise (x : String × Manifest)
    {l : List (String × Manifest)} (h : l.Pairwise nameLe) :
    (insertSorted x l).Pairwise nameLe := by
  induction l with
  | nil => simp [insertSorted, nameLe]
  | cons y ys ih =>
    rcases List.pairwise_cons.mp h with ⟨hy, hys⟩
    rw [insertSorted_cons]
    by_cases hxy : strLe x.1 y.1
    · rw [if_pos hxy]
      refine List.pairwise_cons.mpr ⟨?_, h⟩
      intro z hz
      rcases List.mem_cons.mp hz with rfl | hz2
      · exact hxy
      · exact strLe_trans hxy (hy z hz2)
    · rw [if_neg hxy]
      refine List.pairwise_cons.mpr ⟨?_, ih hys⟩
      intro z hz
      rcases mem_insertSorted.mp hz with rfl | hz2
      · rcases strLe_total z.1 y.1 with h1 | h1
        · exact absurd h1 hxy
        · exact h1
      · exact hy z hz2

theorem sortManifests_pairwise :
    ∀ l : List (String × Manifest), (sortManifests l).Pairwise nameLe := by
  intro l
  induction l with
  | nil => simp [sortManifests]
  | cons x xs ih => exact insertSorted_pairwise x ih

end OrderLemmas

section ScanLemmas

theorem processManifest_shape (lastEx : List String) (d : TypeDir) (t : String)
    (e : String × Manifest) :
    ∃ st, processManifest lastEx d t e = ⟨t, e.1, e.2, st⟩ := by
  simp only [processManifest]
  split
  · exact ⟨ItemStatus.skipped, rfl⟩
  · split
    · exact ⟨ItemStatus.verifyFailed, rfl⟩
    · exact ⟨ItemStatus.extractedNow, rfl⟩

theorem processManifest_skipped_of_mem {lastEx : List String} {d : TypeDir} {t : String}
    {e : String × Manifest} (h : e.2.sha256 ∈ lastEx) :
    processManifest lastEx d t e = ⟨t, e.1, e.2, ItemStatus.skipped⟩ := by
  simp [processManifest, h]

theorem processManifest_of_fail {lastEx : List String} {d : TypeDir} {t : String}
    {e : String × Manifest} (h : e.2.sha256 ∉ lastEx)
    (hv : _verify_backup (findFile d.files e.2.filename) e.2 = false) :
    processManifest lastEx d t e = ⟨t, e.1, e.2, ItemStatus.verifyFailed⟩ := by
  simp [processManifest, h, hv]

theorem processManifest_of_ok {lastEx : List String} {d : TypeDir} {t : String}
    {e : String × Manifest} (h : e.2.sha256 ∉ lastEx)
    (hv : _verify_backup (findFile d.files e.2.filename) e.2 = true) :
    processManifest lastEx d t e = ⟨t, e.1, e.2, ItemStatus.extractedNow⟩ := by
  simp [processManifest, h, hv]

theorem processManifest_cases (lastEx : List String) (d : TypeDir) (t : String)
    (e : String × Manifest) :
    (e.2.sha256 ∈ lastEx ∧
      processManifest lastEx d t e = ⟨t, e.1, e.2, ItemStatus.skipped⟩) ∨
    (e.2.sha256 ∉ lastEx ∧
      _verify_backup (findFile d.files e.2.filename) e.2 = false ∧
      processManifest lastEx d t e = ⟨t, e.1, e.2, ItemStatus.verifyFailed⟩) ∨
    (e.2.sha256 ∉ lastEx ∧
      _verify_backup (findFile d.files e.2.filename) e.2 = true ∧
      processManifest lastEx d t e = ⟨t, e.1, e.2, ItemStatus.extractedNow⟩) := by
  by_cases h : e.2.sha256 ∈ lastEx
  · exact Or.inl ⟨h, processManifest_skipped_of_mem h⟩
  · cases hv : _verify_backup (findFile d.files e.2.filename) e.2
    · exact Or.inr (Or.inl ⟨h, rfl, processManifest_of_fail h hv⟩)
    · exact Or.inr (Or.inr ⟨h, rfl, processManifest_of_ok h hv⟩)

theorem mem_scanDir {it : ScanItem} {lastEx : List String} {t : String}
    {od : Option TypeDir} :
    it ∈ scanDir lastEx t od ↔
      ∃ d e, od = some d ∧ e ∈ sortManifests d.manifests ∧
        it = processManifest lastEx d t e := by
  cases od with
  | none => simp [scanDir]
  | some d =>
    simp only [scanDir, List.mem_map, Option.some.injEq]
    constructor
    · rintro ⟨e, he, rfl⟩
      exact ⟨d, e, rfl, he, rfl⟩
    · rintro ⟨d2, e, rfl, he, rfl⟩
      exact ⟨e, he, rfl⟩

theorem mem_scanStore {it : ScanItem} {store : Store} {lastEx : List String} :
    it ∈ scanStore store lastEx ↔
      it ∈ scanDir lastEx "hourly" store.hourly ∨
      it ∈ scanDir lastEx "daily" store.daily ∨
      it ∈ scanDir lastEx "weekly" store.weekly := by
  simp [scanStore, List.mem_append, or_assoc]

theorem mem_new_backupsOf {h : String} {items : List ScanItem} :
    h ∈ new_backupsOf items ↔
      ∃ it ∈ items, it.status = ItemStatus.extractedNow ∧ it.manifest.sha256 = h := by
  simp only [new_backupsOf, List.mem_filterMap]
  constructor
  · rintro ⟨it, hit, hsome⟩
    by_cases hs : it.status = ItemStatus.extractedNow
    · rw [if_pos hs] at hsome
      exact ⟨it, hit, hs, Option.some.inj hsome⟩
    · rw [if_neg hs] at hsome
      cases hsome
  · rintro ⟨it, hit, hs, rfl⟩
    exact ⟨it, hit, by rw [if_pos hs]⟩

theorem new_backupsOf_append (a b : List ScanItem) :
    new_backupsOf (a ++ b) = new_backupsOf a ++ new_backupsOf b := by
  simp [new_backupsOf, List.filterMap_append]

theorem new_backupsOf_eq_nil {items : List ScanItem} :
    new_backupsOf items = [] ↔
      ∀ it ∈ items, it.status ≠ ItemStatus.extractedNow := by
  rw [new_backupsOf, List.filterMap_eq_nil_iff]
  constructor
  · intro hall it hit hs
    have h2 := hall it hit
    rw [if_pos hs] at h2
    cases h2
  · intro hall it hit
    rw [if_neg (hall it hit)]

theorem nb_scanStore_decompose (store : Store) (lastEx : List String) :
    new_backupsOf (scanStore store lastEx) =
      new_backupsOf (scanDir lastEx "hourly" store.hourly) ++
      new_backupsOf (scanDir lastEx "daily" store.daily) ++
      new_backupsOf (scanDir lastEx "weekly" store.weekly) := by
  rw [scanStore, new_backupsOf_append, new_backupsOf_append]

theorem new_backupsOf_map_sublist (lastEx : List String) (d : TypeDir) (t : String) :
    ∀ l : List (String × Manifest),
      List.Sublist (new_backupsOf (l.map (processManifest lastEx d t)))
        (l.map (fun e => e.2.sha256)) := by
  intro l
  induction l with
  | nil => simp [new_backupsOf]
  | cons e rest ih =>
    rcases processManifest_shape lastEx d t e with ⟨st, hpm⟩
    rw [List.map_cons, List.map_cons]
    by_cases hs : st = ItemStatus.extractedNow
    · have hnb : new_backupsOf
          (processManifest lastEx d t e :: rest.map (processManifest lastEx d t)) =
          e.2.sha256 :: new_backupsOf (rest.map (processManifest lastEx d t)) := by
        rw [hpm]
        simp [new_backupsOf, List.filterMap_cons, hs]
      rw [hnb]
      exact ih.cons₂ _
    · have hnb : new_backupsOf
          (processManifest lastEx d t e :: rest.map (processManifest lastEx d t)) =
          new_backupsOf (rest.map (processManifest lastEx d t)) := by
        rw [hpm]
        simp [new_backupsOf, List.filterMap_cons, hs]
      rw [hnb]
      exact ih.cons _

theorem nb_scanDir_subset {h : String} {lastEx : List String} {t : String}
    {od : Option TypeDir}
    (hm : h ∈ new_backupsOf (scanDir lastEx t od)) : h ∈ dirHashes od := by
  cases od with
  | none => simp [scanDir, new_backupsOf] at hm
  | some d =>
    have hsub := new_backupsOf_map_sublist lastEx d t (sortManifests d.manifests)
    have h2 : h ∈ (sortManifests d.manifests).map (fun e => e.2.sha256) := hsub.mem hm
    have hperm := (sortManifests_perm d.manifests).map (fun e => e.2.sha256)
    exact hperm.mem_iff.mp h2

theorem nb_scanDir_nodup {lastEx : List String} {t : String} {od : Option TypeDir}
    (hnd : (dirHashes od).Nodup) :
    (new_backupsOf (scanDir lastEx t od)).Nodup := by
  cases od with
  | none => simp [scanDir, new_backupsOf]
  | some d =>
    have hnd1 : (d.manifests.map (fun e => e.2.sha256)).Nodup := hnd
    have hperm := (sortManifests_perm d.manifests).map (fun e => e.2.sha256)
    have h2 : ((sortManifests d.manifests).map (fun e => e.2.sha256)).Nodup :=
      hperm.nodup_iff.mpr hnd1
    exact (new_backupsOf_map_sublist lastEx d t _).nodup h2

theorem nb_not_mem_of_not_extracted (lastEx : List String) (d : TypeDir) (t : String) :
    ∀ l : List (String × Manifest),
      (l.map (fun e => e.2.sha256)).Nodup →
      ∀ e ∈ l, (processManifest lastEx d t e).status ≠ ItemStatus.extractedNow →
      e.2.sha256 ∉ new_backupsOf (l.map (processManifest lastEx d t)) := by
  intro l
  induction l with
  | nil =>
    intro _ e he
    cases he
  | cons a rest ih =>
    intro hnd e he hs hmem
    rcases List.nodup_cons.mp hnd with ⟨hna, hndr⟩
    rcases processManifest_shape lastEx d t a with ⟨st, hpm⟩
    rcases List.mem_cons.mp he with rfl | he2
    · have hst : st ≠ ItemStatus.extractedNow := by
        rw [hpm] at hs
        exact hs
      have hnb : new_backupsOf
          (processManifest lastEx d t e :: rest.map (processManifest lastEx d t)) =
          new_backupsOf (rest.map (processManifest lastEx d t)) := by
        rw [hpm]
        simp [new_backupsOf, List.filterMap_cons, hst]
      rw [List.map_cons, hnb] at hmem
      exact hna ((new_backupsOf_map_sublist lastEx d t rest).mem hmem)
    · rw [List.map_cons] at hmem
      by_cases hst : st = ItemStatus.extractedNow
      · have hnb : new_backupsOf
            (processManifest lastEx d t a :: rest.map (processManifest lastEx d t)) =
            a.2.sha256 :: new_backupsOf (rest.map (processManifest lastEx d t)) := by
          rw [hpm]
          simp [new_backupsOf, List.filterMap_cons, hst]
        rw [hnb] at hmem
        rcases List.mem_cons.mp hmem with heq | hmem2
        · have hmm : e.2.sha256 ∈ rest.map (fun e => e.2.sha256) :=
            List.mem_map_of_mem (fun e => e.2.sha256) he2
          rw [heq] at hmm
          exact hna hmm
        · exact ih hndr e he2 hs hmem2
      · have hnb : new_backupsOf
            (processManifest lastEx d t a :: rest.map (processManifest lastEx d t)) =
            new_backupsOf (rest.map (processManifest lastEx d t)) := by
          rw [hpm]
          simp [new_backupsOf, List.filterMap_cons, hst]
        rw [hnb] at hmem
        exact ih hndr e he2 hs hmem

theorem scanItem_sha_mem_dirHashes {it : ScanItem} {lastEx : List String} {t : String}
    {od : Option TypeDir} (hit : it ∈ scanDir lastEx t od) :
    it.manifest.sha256 ∈ dirHashes od := by
  rcases mem_scanDir.mp hit with ⟨d, e, rfl, he, rfl⟩
  rcases processManifest_shape lastEx d t e with ⟨st, hpm⟩
  rw [hpm]
  exact List.mem_map_of_mem (fun e => e.2.sha256) (mem_sortManifests.mp he)

theorem nb_scanDir_not_mem {lastEx : List String} {t : String} {od : Option TypeDir}
    {it : ScanItem}
    (hnd : (dirHashes od).Nodup)
    (hit : it ∈ scanDir lastEx t od)
    (hs : it.status ≠ ItemStatus.extractedNow) :
    it.manifest.sha256 ∉ new_backupsOf (scanDir lastEx t od) := by
  rcases mem_scanDir.mp hit with ⟨d, e, rfl, he, rfl⟩
  have hnd1 : (d.manifests.map (fun e => e.2.sha256)).Nodup := hnd
  have hnd2 : ((sortManifests d.manifests).map (fun e => e.2.sha256)).Nodup :=
    ((sortManifests_perm d.manifests).map (fun e => e.2.sha256)).nodup_iff.mpr hnd1
  rcases processManifest_shape lastEx d t e with ⟨st, hpm⟩
  rw [hpm]
  show e.2.sha256 ∉ new_backupsOf (scanDir lastEx t (some d))
  rw [scanDir]
  exact nb_not_mem_of_not_extracted lastEx d t _ hnd2 e he hs

theorem scan_unskipped_not_recorded {store : Store} {lastEx : List String} {it : ScanItem}
    (hit : it ∈ scanStore store lastEx)
    (hs : it.status ≠ ItemStatus.skipped) :
    it.manifest.sha256 ∉ lastEx := by
  have hgen : ∀ (t : String) (od : Option TypeDir), it ∈ scanDir lastEx t od →
      it.manifest.sha256 ∉ lastEx := by
    intro t od hmem
    rcases mem_scanDir.mp hmem with ⟨d, e, _, _, rfl⟩
    rcases processManifest_cases lastEx d t e with ⟨hm, hpm⟩ | ⟨hm, _, hpm⟩ | ⟨hm, _, hpm⟩
    · rw [hpm] at hs
      exact absurd rfl hs
    · rw [hpm]
      exact hm
    · rw [hpm]
      exact hm
  rcases mem_scanStore.mp hit with h | h | h
  · exact hgen _ _ h
  · exact hgen _ _ h
  · exact hgen _ _ h

theorem nb_scanStore_subset {h : String} {store : Store} {lastEx : List String}
    (hm : h ∈ new_backupsOf (scanStore store lastEx)) : h ∈ storeHashes store := by
  rw [nb_scanStore_decompose] at hm
  rw [storeHashes]
  rcases List.mem_append.mp hm with hm2 | hm2
  · rcases List.mem_append.mp hm2 with hm3 | hm3
    · exact List.mem_append_left _ (List.mem_append_left _ (nb_scanDir_subset hm3))
    · exact List.mem_append_left _ (List.mem_append_right _ (nb_scanDir_subset hm3))
  · exact List.mem_append_right _ (nb_scanDir_subset hm2)

theorem nb_scanStore_nodup {store : Store} {lastEx : List String}
    (hnd : (storeHashes store).Nodup) :
    (new_backupsOf (scanStore store lastEx)).Nodup := by
  rw [storeHashes] at hnd
  rcases List.nodup_append.mp hnd with ⟨hndHD, hndW, hdisHDW⟩
  rcases List.nodup_append.mp hndHD with ⟨hndH, hndD, hdisHD⟩
  rw [nb_scanStore_decompose]
  refine List.nodup_append.mpr ⟨List.nodup_append.mpr ⟨nb_scanDir_nodup hndH,
    nb_scanDir_nodup hndD, ?_⟩, nb_scanDir_nodup hndW, ?_⟩
  · intro a haH haD
    exact hdisHD (nb_scanDir_subset haH) (nb_scanDir_subset haD)
  · intro a haHD haW
    rcases List.mem_append.mp haHD with ha | ha
    · exact hdisHDW (List.mem_append_left _ (nb_scanDir_subset ha))
        (nb_scanDir_subset haW)
    · exact hdisHDW (List.mem_append_right _ (nb_scanDir_subset ha))
        (nb_scanDir_subset haW)

theorem nb_scanStore_not_mem {store : Store} {lastEx : List String} {it : ScanItem}
    (hnd : (storeHashes store).Nodup)
    (hit : it ∈ scanStore store lastEx)
    (hs : it.status ≠ ItemStatus.extractedNow) :
    it.manifest.sha256 ∉ new_backupsOf (scanStore store lastEx) := by
  rw [storeHashes] at hnd
  rcases List.nodup_append.mp hnd with ⟨hndHD, hndW, hdisHDW⟩
  rcases List.nodup_append.mp hndHD with ⟨hndH, hndD, hdisHD⟩
  rw [nb_scanStore_decompose]
  intro hmem
  rcases mem_scanStore.mp hit with hin | hin | hin
  · have hsha := scanItem_sha_mem_dirHashes hin
    rcases List.mem_append.mp hmem with hm2 | hm2
    · rcases List.mem_append.mp hm2 with hm3 | hm3
      · exact nb_scanDir_not_mem hndH hin hs hm3
      · exact hdisHD hsha (nb_scanDir_subset hm3)
    · exact hdisHDW (List.mem_append_left _ hsha) (nb_scanDir_subset hm2)
  · have hsha := scanItem_sha_mem_dirHashes hin
    rcases List.mem_append.mp hmem with hm2 | hm2
    · rcases List.mem_append.mp hm2 with hm3 | hm3
      · exact hdisHD (nb_scanDir_subset hm3) hsha
      · exact nb_scanDir_not_mem hndD hin hs hm3
    · exact hdisHDW (List.mem_append_right _ hsha) (nb_scanDir_subset hm2)
  · have hsha := scanItem_sha_mem_dirHashes hin
    rcases List.mem_append.mp hmem with hm2 | hm2
    · rcases List.mem_append.mp hm2 with hm3 | hm3
      · exact hdisHDW (List.mem_append_left _ (nb_scanDir_subset hm3)) hsha
      · exact hdisHDW (List.mem_append_right _ (nb_scanDir_subset hm3)) hsha
    · exact nb_scanDir_not_mem hndW hin hs hm2

theorem scanDir_no_new {lastEx lastEx2 : List String} {t : String} {od : Option TypeDir}
    (h1 : ∀ a ∈ lastEx, a ∈ lastEx2)
    (h2 : ∀ a ∈ new_backupsOf (scanDir lastEx t od), a ∈ lastEx2) :
    new_backupsOf (scanDir lastEx2 t od) = [] := by
  rw [new_backupsOf_eq_nil]
  intro it hit hs
  rcases mem_scanDir.mp hit with ⟨d, e, hod, he, rfl⟩
  rcases processManifest_cases lastEx2 d t e with ⟨hm, hpm⟩ | ⟨hm, hv, hpm⟩ | ⟨hm, hv, hpm⟩
  · simp [hpm] at hs
  · simp [hpm] at hs
  · have hm1 : e.2.sha256 ∉ lastEx := fun hx => hm (h1 _ hx)
    have hpm1 := @processManifest_of_ok lastEx d t e hm1 hv
    have hitem : processManifest lastEx d t e ∈ scanDir lastEx t od :=
      mem_scanDir.mpr ⟨d, e, hod, he, rfl⟩
    have hsha : e.2.sha256 ∈ new_backupsOf (scanDir lastEx t od) := by
      apply mem_new_backupsOf.mpr
      refine ⟨processManifest lastEx d t e, hitem, ?_, ?_⟩
      · rw [hpm1]
      · rw [hpm1]
    exact hm (h2 _ hsha)

theorem scanStore_no_new {store : Store} {lastEx lastEx2 : List String}
    (h1 : ∀ a ∈ lastEx, a ∈ lastEx2)
    (h2 : ∀ a ∈ new_backupsOf (scanStore store lastEx), a ∈ lastEx2) :
    new_backupsOf (scanStore store lastEx2) = [] := by
  have hsub : ∀ (a : String),
      a ∈ new_backupsOf (scanDir lastEx "hourly" store.hourly) ∨
      a ∈ new_backupsOf (scanDir lastEx "daily" store.daily) ∨
      a ∈ new_backupsOf (scanDir lastEx "weekly" store.weekly) → a ∈ lastEx2 := by
    intro a ha
    apply h2
    rw [nb_scanStore_decompose]
    rcases ha with ha | ha | ha
    · exact List.mem_append_left _ (List.mem_append_left _ ha)
    · exact List.mem_append_left _ (List.mem_append_right _ ha)
    · exact List.mem_append_right _ ha
  rw [nb_scanStore_decompose,
    scanDir_no_new h1 (fun a ha => hsub a (Or.inl ha)),
    scanDir_no_new h1 (fun a ha => hsub a (Or.inr (Or.inl ha))),
    scanDir_no_new h1 (fun a ha => hsub a (Or.inr (Or.inr ha)))]
  rfl

theorem scan_and_extract_items (store : Store) (st : Option SyncState) (now : String) :
    (scan_and_extract store st now).1 =
      scanStore store (_load_last_sync st).extracted := rfl

theorem scan_and_extract_state (store : Store) (st : Option SyncState) (now : String) :
    (scan_and_extract store st now).2 =
      if (new_backupsOf (scanStore store (_load_last_sync st).extracted)).isEmpty then st
      else some (_save_last_sync st
        (new_backupsOf (scanStore store (_load_last_sync st).extracted)) now) := rfl

theorem load_after_scan (store : Store) (st : Option SyncState) (now : String) :
    (_load_last_sync (scan_and_extract store st now).2).extracted =
      (_load_last_sync st).extracted ++
        new_backupsOf (scanStore store (_load_last_sync st).extracted) := by
  rw [scan_and_extract_state]
  by_cases hnb : (new_backupsOf (scanStore store (_load_last_sync st).extracted)).isEmpty
  · rw [if_pos hnb]
    rw [List.isEmpty_iff] at hnb
    rw [hnb, List.append_nil]
  · rw [if_neg hnb]
    simp [_load_last_sync, _save_last_sync]

theorem scanDir_reverify {lastEx lastEx2 : List String} {t : String} {od : Option TypeDir}
    {it : ScanItem}
    (hit : it ∈ scanDir lastEx t od)
    (hf : it.status = ItemStatus.verifyFailed)
    (hm2 : it.manifest.sha256 ∉ lastEx2) :
    it ∈ scanDir lastEx2 t od := by
  rcases mem_scanDir.mp hit with ⟨d, e, hod, he, rfl⟩
  rcases processManifest_cases lastEx d t e with ⟨_, hpm⟩ | ⟨_, hv, hpm⟩ | ⟨_, _, hpm⟩
  · simp [hpm] at hf
  · have hm2e : e.2.sha256 ∉ lastEx2 := by
      rw [hpm] at hm2
      exact hm2
    have heq : processManifest lastEx2 d t e = processManifest lastEx d t e := by
      rw [hpm]
      exact processManifest_of_fail hm2e hv
    rw [← heq]
    exact mem_scanDir.mpr ⟨d, e, hod, he, rfl⟩
  · simp [hpm] at hf

theorem mem_verifiedManifests {m : Manifest} {items : List ScanItem} :
    m ∈ verifiedManifests items ↔
      ∃ it ∈ items, it.status ≠ ItemStatus.skipped ∧ it.manifest = m := by
  simp only [verifiedManifests, List.mem_filterMap]
  constructor
  · rintro ⟨it, hit, hsome⟩
    by_cases hs : it.status = ItemStatus.skipped
    · rw [if_pos hs] at hsome
      cases hsome
    · rw [if_neg hs] at hsome
      exact ⟨it, hit, hs, Option.some.inj hsome⟩
  · rintro ⟨it, hit, hs, rfl⟩
    exact ⟨it, hit, by rw [if_neg hs]⟩

theorem verification_failed_mem_scanEvents {items : List ScanItem} {it : ScanItem}
    (hit : it ∈ items) (hf : it.status = ItemStatus.verifyFailed) :
    AuditEvent.verification_failed it.manifest.filename it.manifest.sha256 ∈
      scanEvents items := by
  rw [scanEvents]
  apply List.mem_filterMap.mpr
  exact ⟨it, hit, by simp [hf]⟩

theorem scanDir_map_mfile (lastEx : List String) (t : String) (od : Option TypeDir) :
    (scanDir lastEx t od).map (fun it => it.mfile) = dirOrder od := by
  cases od with
  | none => rfl
  | some d =>
    rw [scanDir, dirOrder, List.map_map]
    apply List.map_congr_left
    intro e _
    rcases processManifest_shape lastEx d t e with ⟨st, hpm⟩
    simp [hpm]

theorem scanOrder_decompose (store : Store) (lastEx : List String) :
    scanOrder store lastEx =
      dirOrder store.hourly ++ dirOrder store.daily ++ dirOrder store.weekly := by
  rw [scanOrder, scanStore, List.map_append, List.map_append,
    scanDir_map_mfile, scanDir_map_mfile, scanDir_map_mfile]

theorem dirOrder_pairwise (od : Option TypeDir) :
    (dirOrder od).Pairwise (fun a b => strLe a b = true) := by
  cases od with
  | none => simp [dirOrder]
  | some d =>
    rw [dirOrder, List.pairwise_map]
    exact sortManifests_pairwise d.manifests

theorem mem_copiedArtifacts {a t : String} {items : List ScanItem} :
    a ∈ copiedArtifacts t items ↔
      ∃ it ∈ items, it.backup_type = t ∧ it.status = ItemStatus.extractedNow ∧
        it.manifest.filename = a := by
  simp only [copiedArtifacts, List.mem_filterMap]
  constructor
  · rintro ⟨it, hit, hsome⟩
    by_cases hc : it.backup_type = t ∧ it.status = ItemStatus.extractedNow
    · rw [if_pos hc] at hsome
      exact ⟨it, hit, hc.1, hc.2, Option.some.inj hsome⟩
    · rw [if_neg hc] at hsome
      cases hsome
  · rintro ⟨it, hit, h1, h2, rfl⟩
    exact ⟨it, hit, by rw [if_pos ⟨h1, h2⟩]⟩

theorem scanItem_entry_of_dir {lastEx : List String} {t : String} {od : Option TypeDir}
    {it : ScanItem} (hit : it ∈ scanDir lastEx t od) :
    ∃ d, od = some d ∧ (it.mfile, it.manifest) ∈ d.manifests ∧ it.backup_type = t := by
  rcases mem_scanDir.mp hit with ⟨d, e, hod, he, rfl⟩
  rcases processManifest_shape lastEx d t e with ⟨st2, hpm⟩
  rw [hpm]
  exact ⟨d, hod, mem_sortManifests.mp he, rfl⟩

theorem scanItem_manifest_entry {store : Store} {lastEx : List String} {it : ScanItem}
    (hit : it ∈ scanStore store lastEx) :
    ∃ d, storeDir store it.backup_type = some d ∧
      (it.mfile, it.manifest) ∈ d.manifests := by
  rcases mem_scanStore.mp hit with hin | hin | hin
  · rcases scanItem_entry_of_dir hin with ⟨d, hod, hm, hbt⟩
    exact ⟨d, by rw [hbt]; exact hod, hm⟩
  · rcases scanItem_entry_of_dir hin with ⟨d, hod, hm, hbt⟩
    exact ⟨d, by rw [hbt]; exact hod, hm⟩
  · rcases scanItem_entry_of_dir hin with ⟨d, hod, hm, hbt⟩
    exact ⟨d, by rw [hbt]; exact hod, hm⟩

end ScanLemmas

section SweepLemmas

theorem sweepLoop_spec (co : Int) (bt : String) :
    ∀ l : List SweepEntry,
      sweepLoop co bt l =
        ⟨(l.filter (fun f => decide (f.mtime < co) && f.unlinkOk)).length,
         (l.filter (fun f => decide (f.mtime < co) && f.unlinkOk)).map
           (fun f => AuditEvent.backup_removed f.name bt),
         (l.filter (fun f => decide (f.mtime < co) && !f.unlinkOk)).map
           (fun f => "Failed to cleanup " ++ f.name)⟩ := by
  intro l
  induction l with
  | nil => rfl
  | cons f rest ih =>
    rw [sweepLoop]
    by_cases hc : f.mtime < co
    · by_cases hu : f.unlinkOk
      · rw [if_pos hc, if_pos hu, ih]
        simp [List.filter_cons, hc, hu]
      · rw [if_pos hc, if_neg hu, ih]
        simp only [Bool.not_eq_true] at hu
        simp [List.filter_cons, hc, hu]
    · rw [if_neg hc, ih]
      simp [List.filter_cons, hc]

theorem cleanup_events_shape (now : Int) (bt : String) (dir : Option (List SweepEntry)) :
    ∀ ev ∈ (_cleanup_old_backups now bt dir).events,
      ∃ n t2, ev = AuditEvent.backup_removed n t2 := by
  intro ev hev
  cases dir with
  | none => cases hev
  | some l =>
    rw [_cleanup_old_backups, sweepLoop_spec] at hev
    rcases List.mem_map.mp hev with ⟨f, _, rfl⟩
    exact ⟨f.name, bt, rfl⟩

theorem filterMap_removed_name (bt : String) :
    ∀ l : List SweepEntry,
      (l.map (fun f => AuditEvent.backup_removed f.name bt)).filterMap
        (fun ev => match ev with
          | AuditEvent.backup_removed n _ => some n
          | _ => none) = l.map (fun f => f.name) := by
  intro l
  induction l with
  | nil => rfl
  | cons f rest ih => simp [List.filterMap_cons, ih]

theorem removedNamesOf_cleanup (now : Int) (bt : String) (l : List SweepEntry) :
    removedNamesOf (_cleanup_old_backups now bt (some l)) =
      (l.filter (fun f =>
        decide (f.mtime < cutoff_timestamp now bt) && f.unlinkOk)).map
        (fun f => f.name) := by
  rw [_cleanup_old_backups, sweepLoop_spec, removedNamesOf]
  exact filterMap_removed_name bt _

end SweepLemmas

section PublishLemmas

theorem create_backup_spec (bt ts db ca : String) (now : Int) (env : PublishEnv) :
    (∃ e, (create_backup bt ts db ca now env).result = Except.error e ∧
       (create_backup bt ts db ca now env).audit = [AuditEvent.backup_failed bt e]) ∨
    (∃ m, (create_backup bt ts db ca now env).result = Except.ok m ∧
       (create_backup bt ts db ca now env).audit =
         AuditEvent.backup_created m ::
           (_cleanup_old_backups now bt env.cleanupDir).events ∧
       (create_backup bt ts db ca now env).storeOps =
         [StoreOp.renameArtifact, StoreOp.writeSidecar, StoreOp.writeManifest]) := by
  rcases env with ⟨d, c, ck, sz, rn, wc, wm, im, cd⟩
  cases d <;> cases c <;> cases ck <;> cases sz <;> cases rn <;> cases wc <;> cases wm <;>
    first
      | exact Or.inl ⟨_, rfl, rfl⟩
      | exact Or.inr ⟨_, rfl, rfl, rfl⟩

theorem create_backup_storeOps_cases (bt ts db ca : String) (now : Int)
    (env : PublishEnv) :
    (create_backup bt ts db ca now env).storeOps = [] ∨
    (create_backup bt ts db ca now env).storeOps = [StoreOp.renameArtifact] ∨
    (create_backup bt ts db ca now env).storeOps =
      [StoreOp.renameArtifact, StoreOp.writeSidecar] ∨
    (create_backup bt ts db ca now env).storeOps =
      [StoreOp.renameArtifact, StoreOp.writeSidecar, StoreOp.writeManifest] := by
  rcases env with ⟨d, c, ck, sz, rn, wc, wm, im, cd⟩
  cases d <;> cases c <;> cases ck <;> cases sz <;> cases rn <;> cases wc <;> cases wm <;>
    first
      | exact Or.inl rfl
      | exact Or.inr (Or.inl rfl)
      | exact Or.inr (Or.inr (Or.inl rfl))
      | exact Or.inr (Or.inr (Or.inr rfl))

theorem take_descriptor_invariant (ops : List StoreOp)
    (h : ops = [] ∨ ops = [StoreOp.renameArtifact] ∨
      ops = [StoreOp.renameArtifact, StoreOp.writeSidecar] ∨
      ops = [StoreOp.renameArtifact, StoreOp.writeSidecar, StoreOp.writeManifest]) :
    ∀ n, (StoreOp.writeSidecar ∈ ops.take n → StoreOp.renameArtifact ∈ ops.take n) ∧
      (StoreOp.writeManifest ∈ ops.take n →
        StoreOp.renameArtifact ∈ ops.take n ∧ StoreOp.writeSidecar ∈ ops.take n) := by
  intro n
  rcases h with rfl | rfl | rfl | rfl <;>
    rcases n with _ | _ | _ | n <;>
    simp [List.take]

end PublishLemmas

/-- C10: the ledger extracted collection is append-only: a save writes
exactly the prior collection followed by the new hashes (so prior entries
are neither removed nor reordered and remain the leading segment),
loading a missing state file yields the empty collection, and after every
save total_extracted equals the length of the stored collection. -/
theorem c10_ledger_append_only (stateFile : Option SyncState)
    (new_checksums : List String) (now : String) :
    (_save_last_sync stateFile new_checksums now).extracted =
      (_load_last_sync stateFile).extracted ++ new_checksums ∧
    _load_last_sync none = ⟨[], none, none⟩ ∧
    (_save_last_sync stateFile new_checksums now).total_extracted =
      some (_save_last_sync stateFile new_checksums now).extracted.length ∧
    (_save_last_sync stateFile new_checksums now).extracted.take
        (_load_last_sync stateFile).extracted.length =
      (_load_last_sync stateFile).extracted := by
  refine ⟨rfl, rfl, rfl, ?_⟩
  rw [show (_save_last_sync stateFile new_checksums now).extracted =
    (_load_last_sync stateFile).extracted ++ new_checksums from rfl]
  exact List.take_left _ _

/-- C7: the retention sweep processes every candidate independently: the
returned count is the number of candidates (strictly older than the
cutoff) whose deletion succeeded, exactly one backup_removed record is
appended per successful removal, and every failed candidate leaves a
warning while the remaining candidates are still processed; all three
outputs are total functions of the full entry list, so one failure never
aborts the sweep. -/
theorem c7_sweep_continues_after_failure (now : Int) (backup_type : String)
    (entries : List SweepEntry) :
    (_cleanup_old_backups now backup_type (some entries)).removed_count =
      (entries.filter (fun f =>
        decide (f.mtime < cutoff_timestamp now backup_type) && f.unlinkOk)).length ∧
    (_cleanup_old_backups now backup_type (some entries)).events =
      (entries.filter (fun f =>
        decide (f.mtime < cutoff_timestamp now backup_type) && f.unlinkOk)).map
        (fun f => AuditEvent.backup_removed f.name backup_type) ∧
    (_cleanup_old_backups now backup_type (some entries)).warnings =
      (entries.filter (fun f =>
        decide (f.mtime < cutoff_timestamp now backup_type) && !f.unlinkOk)).map
        (fun f => "Failed to cleanup " ++ f.name) ∧
    (_cleanup_old_backups now backup_type (some entries)).events.length =
      (_cleanup_old_backups now backup_type (some entries)).removed_count := by
  rw [_cleanup_old_backups, sweepLoop_spec]
  exact ⟨rfl, rfl, rfl, by simp⟩

/-- C4: when every deletion succeeds, the sweep removes exactly the
artifacts whose modification time is strictly below now minus the
retention period of the class (hourly 2 days, daily 7, weekly 28,
unknown 7), and an artifact sitting exactly at the cutoff is retained. -/
theorem c4_retention_boundary_strict (now : Int) (backup_type : String)
    (entries : List SweepEntry)
    (hok : ∀ f ∈ entries, f.unlinkOk = true)
    (hnd : (entries.map (fun f => f.name)).Nodup) :
    removedNamesOf (_cleanup_old_backups now backup_type (some entries)) =
      (entries.filter (fun f =>
        decide (f.mtime < cutoff_timestamp now backup_type))).map (fun f => f.name) ∧
    (∀ f ∈ entries, f.mtime = cutoff_timestamp now backup_type →
      f.name ∉ removedNamesOf (_cleanup_old_backups now backup_type (some entries))) ∧
    retention_days "hourly" = 2 ∧ retention_days "daily" = 7 ∧
    retention_days "weekly" = 28 ∧
    (∀ t, t ≠ "hourly" → t ≠ "daily" → t ≠ "weekly" → retention_days t = 7) ∧
    (∀ t, cutoff_timestamp now t = now - (retention_days t : Int) * 86400) := by
  have h1 : removedNamesOf (_cleanup_old_backups now backup_type (some entries)) =
      (entries.filter (fun f =>
        decide (f.mtime < cutoff_timestamp now backup_type))).map (fun f => f.name) := by
    rw [removedNamesOf_cleanup]
    congr 1
    apply List.filter_congr
    intro f hf
    rw [hok f hf, Bool.and_true]
  refine ⟨h1, ?_, rfl, rfl, rfl, ?_, fun t => rfl⟩
  · intro f hf heq hmem
    rw [h1] at hmem
    rcases List.mem_map.mp hmem with ⟨g, hg, hgf⟩
    rcases List.mem_filter.mp hg with ⟨hgmem, hglt⟩
    have hfg : g = f := List.inj_on_of_nodup_map hnd hgmem hf hgf
    rw [hfg, heq] at hglt
    simp at hglt
  · intro t ht1 ht2 ht3
    simp [retention_days, ht1, ht2, ht3]

/-- C4 witness: with now = 1000000 and the hourly cutoff at 827200, the
sweep over three artifacts removes only the one at 827199; the artifact
whose modification time equals the cutoff is retained. -/
theorem c4_retention_boundary_strict_witness :
    removedNamesOf (_cleanup_old_backups 1000000 "hourly" (some c4entries)) =
      ["old.sql.gz"] ∧
    (∀ f ∈ c4entries, f.mtime = cutoff_timestamp 1000000 "hourly" →
      f.name ∉ removedNamesOf (_cleanup_old_backups 1000000 "hourly" (some c4entries))) := by
  refine ⟨?_, (c4_retention_boundary_strict 1000000 "hourly" c4entries
    (by decide) (by decide)).2.1⟩
  rfl

/-- C3 amended: one pass visits all existing class directories in the
fixed order hourly, daily, weekly, sorting manifests lexicographically by
filename within each class; the cross-class concatenation need not be
globally sorted. -/
theorem c3_scan_order_within_classes (store : Store) (lastEx : List String) :
    scanOrder store lastEx =
      dirOrder store.hourly ++ dirOrder store.daily ++ dirOrder store.weekly ∧
    (dirOrder store.hourly).Pairwise (fun a b => strLe a b = true) ∧
    (dirOrder store.daily).Pairwise (fun a b => strLe a b = true) ∧
    (dirOrder store.weekly).Pairwise (fun a b => strLe a b = true) :=
  ⟨scanOrder_decompose store lastEx, dirOrder_pairwise store.hourly,
   dirOrder_pairwise store.daily, dirOrder_pairwise store.weekly⟩

/-- C3 counterexample: with an hourly manifest named b... and a daily
manifest named a..., the pass processes b before a, so the sequence of
processed manifests is not sorted by filename across classes. -/
theorem c3_counterexample :
    scanOrder c3store [] = ["b.sql.gz.manifest.json", "a.sql.gz.manifest.json"] ∧
    ¬ (scanOrder c3store []).Pairwise (fun a b => strLe a b = true) := by
  refine ⟨rfl, ?_⟩
  decide

/-- C5: on a fully successful run the audit log holds exactly one
backup_created record and it carries the returned manifest (the retention
sweep can only append backup_removed records after it); on any failing
run the backup_failed record carrying the propagated error is appended,
so no failure path returns without an audit record. -/
theorem c5_audit_every_path (bt ts db ca : String) (now : Int) (env : PublishEnv) :
    (∀ m, (create_backup bt ts db ca now env).result = Except.ok m →
      (create_backup bt ts db ca now env).audit.count (AuditEvent.backup_created m) = 1 ∧
      (create_backup bt ts db ca now env).audit.head? =
        some (AuditEvent.backup_created m) ∧
      (∀ m2, AuditEvent.backup_created m2 ∈ (create_backup bt ts db ca now env).audit →
        m2 = m)) ∧
    (∀ e, (create_backup bt ts db ca now env).result = Except.error e →
      (create_backup bt ts db ca now env).audit = [AuditEvent.backup_failed bt e]) := by
  rcases create_backup_spec bt ts db ca now env with ⟨e, he, ha⟩ | ⟨m, hm, ha, _⟩
  · constructor
    · intro m hres
      rw [he] at hres
      cases hres
    · intro e2 hres
      rw [he] at hres
      injection hres with h2
      rw [← h2]
      exact ha
  · constructor
    · intro m2 hres
      rw [hm] at hres
      injection hres with h2
      subst h2
      have hshape := cleanup_events_shape now bt env.cleanupDir
      refine ⟨?_, ?_, ?_⟩
      · rw [ha, List.count_cons]
        have hzero : (_cleanup_old_backups now bt env.cleanupDir).events.count
            (AuditEvent.backup_created m) = 0 := by
          apply List.count_eq_zero.mpr
          intro hmem
          rcases hshape _ hmem with ⟨n, t2, hsh⟩
          cases hsh
        rw [hzero]
        simp
      · rw [ha]
        rfl
      · intro m3 hmem
        rw [ha] at hmem
        rcases List.mem_cons.mp hmem with heq | hmem2
        · injection heq with h3
        · rcases hshape _ hmem2 with ⟨n, t2, hsh⟩
          cases hsh
    · intro e hres
      rw [hm] at hres
      cases hres

/-- C5 witness: the concrete successful run c5env returns the manifest
c5manifest and its audit log counts exactly one backup_created record
for it, even though the sweep also removed a stale artifact. -/
theorem c5_audit_every_path_witness :
    (create_backup "hourly" "2026-01-18_00-00-00" "app_db"
      "2026-01-18T00:00:10+00:00" 0 c5env).audit.count
      (AuditEvent.backup_created c5manifest) = 1 :=
  ((c5_audit_every_path "hourly" "2026-01-18_00-00-00" "app_db"
    "2026-01-18T00:00:10+00:00" 0 c5env).1 c5manifest rfl).1

/-- C6: in every run the artifact rename is the first mutation of the
active store and happens at most once, every store state reached during
the run satisfies that a sidecar or manifest write implies the rename
already happened (and the manifest write implies the sidecar write), and
a successful publish performs exactly rename, sidecar write, manifest
write in that order. -/
theorem c6_rename_precedes_descriptors (bt ts db ca : String) (now : Int)
    (env : PublishEnv) :
    (∀ n, (StoreOp.writeSidecar ∈ (create_backup bt ts db ca now env).storeOps.take n →
        StoreOp.renameArtifact ∈ (create_backup bt ts db ca now env).storeOps.take n) ∧
      (StoreOp.writeManifest ∈ (create_backup bt ts db ca now env).storeOps.take n →
        StoreOp.renameArtifact ∈ (create_backup bt ts db ca now env).storeOps.take n ∧
        StoreOp.writeSidecar ∈ (create_backup bt ts db ca now env).storeOps.take n)) ∧
    (create_backup bt ts db ca now env).storeOps.count StoreOp.renameArtifact ≤ 1 ∧
    (∀ m, (create_backup bt ts db ca now env).result = Except.ok m →
      (create_backup bt ts db ca now env).storeOps =
        [StoreOp.renameArtifact, StoreOp.writeSidecar, StoreOp.writeManifest]) := by
  refine ⟨take_descriptor_invariant _ (create_backup_storeOps_cases bt ts db ca now env),
    ?_, ?_⟩
  · rcases create_backup_storeOps_cases bt ts db ca now env with h | h | h | h <;>
      rw [h] <;> decide
  · intro m hres
    rcases create_backup_spec bt ts db ca now env with ⟨e, he, _⟩ | ⟨m2, hm, _, hops⟩
    · rw [he] at hres
      cases hres
    · exact hops

/-- C6 witness: in the concrete successful run c6env, after the first
two store mutations the sidecar is present and so is the renamed
artifact. -/
theorem c6_rename_precedes_descriptors_witness :
    StoreOp.renameArtifact ∈
      ((create_backup "hourly" "2026-01-18_00-00-00" "app_db" "x" 0 c6env).storeOps.take 2) :=
  ((c6_rename_precedes_descriptors "hourly" "2026-01-18_00-00-00" "app_db" "x" 0
    c6env).1 2).1 (by decide)

/-- C8: the verifier returns true exactly when the artifact exists with
the declared byte length and the recomputed hash equals the declared
hash (it is a total function, so no mismatch raises); every manifest
failing verification in a pass yields a verification_failed audit record,
and the pass still visits every manifest of every class. -/
theorem c8_verify_iff (f : Option FSFile) (m : Manifest) (store : Store)
    (st : Option SyncState) (now : String) :
    (_verify_backup f m = true ↔
      ∃ fd, f = some fd ∧ fd.size = m.size_bytes ∧ fd.checksum = m.sha256) ∧
    (∀ it ∈ (scan_and_extract store st now).1, it.status = ItemStatus.verifyFailed →
      AuditEvent.verification_failed it.manifest.filename it.manifest.sha256 ∈
        scanEvents (scan_and_extract store st now).1) ∧
    ((scan_and_extract store st now).1.map (fun it => it.mfile) =
      dirOrder store.hourly ++ dirOrder store.daily ++ dirOrder store.weekly) := by
  refine ⟨?_, ?_, ?_⟩
  · cases f with
    | none => simp [_verify_backup]
    | some fd =>
      by_cases h1 : fd.size = m.size_bytes
      · by_cases h2 : fd.checksum = m.sha256
        · simp [_verify_backup, h1, h2]
        · simp [_verify_backup, h1, h2]
      · simp [_verify_backup, h1]
  · intro it hit hf
    exact verification_failed_mem_scanEvents hit hf
  · exact scanOrder_decompose store (_load_last_sync st).extracted

/-- C8 witness: in the concrete store c8store the single manifest fails
verification by checksum mismatch and the scan logs a
verification_failed record for it. -/
theorem c8_verify_iff_witness :
    AuditEvent.verification_failed c8item.manifest.filename c8item.manifest.sha256 ∈
      scanEvents (scan_and_extract c8store none "t").1 :=
  (c8_verify_iff (some ⟨5, "hbad"⟩) c8m c8store none "t").2.1 c8item (by decide) (by decide)

/-- C9: every item a pass processes corresponds to a manifest file
present in its class directory of the active store, and a data file that
no manifest of its class references is never copied to external
storage: manifest-less artifacts are invisible to the extraction scan. -/
theorem c9_no_manifestless_extraction (store : Store) (st : Option SyncState)
    (now : String) :
    (∀ it ∈ (scan_and_extract store st now).1,
      ∃ d, storeDir store it.backup_type = some d ∧
        (it.mfile, it.manifest) ∈ d.manifests) ∧
    (∀ t a, (∀ e ∈ dirManifests (storeDir store t), e.2.filename ≠ a) →
      a ∉ copiedArtifacts t (scan_and_extract store st now).1) := by
  constructor
  · intro it hit
    exact scanItem_manifest_entry hit
  · intro t a hno hmem
    rcases mem_copiedArtifacts.mp hmem with ⟨it, hit, hbt, _, hfn⟩
    rcases scanItem_manifest_entry hit with ⟨d, hd, hm⟩
    rw [hbt] at hd
    have hentry : (it.mfile, it.manifest) ∈ dirManifests (storeDir store t) := by
      rw [hd]
      exact hm
    exact hno _ hentry hfn

/-- C9 witness: in the concrete store c9store the data file ghost.sql.gz
has no manifest referencing it, and a scan never copies it to external
storage. -/
theorem c9_no_manifestless_extraction_witness :
    "ghost.sql.gz" ∉ copiedArtifacts "hourly" (scan_and_extract c9store none "t").1 :=
  (c9_no_manifestless_extraction c9store none "t").2 "hourly" "ghost.sql.gz" (by decide)

/-- C1 amended: a hash recorded in the ledger at scan start is never
extracted again; re-running the scan over the unchanged store extracts
nothing and leaves the ledger file untouched; when the manifests of the
store declare pairwise distinct hashes and the ledger starts without
duplicates, the ledger after the scan holds each extracted hash exactly
once; and a scan over a store whose every hash is already recorded does
nothing. (Without the distinctness proviso, two manifests sharing one
hash in a single pass are both extracted and the hash is recorded twice,
because the in-pass dedup check consults only the ledger loaded at scan
start.) -/
theorem c1_extraction_idempotent (store : Store) (st : Option SyncState)
    (now1 now2 : String) :
    (∀ h ∈ (_load_last_sync st).extracted,
      h ∉ new_backupsOf (scan_and_extract store st now1).1) ∧
    (new_backupsOf (scan_and_extract store (scan_and_extract store st now1).2 now2).1 = [] ∧
     (scan_and_extract store (scan_and_extract store st now1).2 now2).2 =
       (scan_and_extract store st now1).2) ∧
    ((storeHashes store).Nodup → (_load_last_sync st).extracted.Nodup →
      ((_load_last_sync (scan_and_extract store st now1).2).extracted.Nodup ∧
       ∀ h ∈ new_backupsOf (scan_and_extract store st now1).1,
         (_load_last_sync (scan_and_extract store st now1).2).extracted.count h = 1)) ∧
    ((∀ h ∈ storeHashes store, h ∈ (_load_last_sync st).extracted) →
      (new_backupsOf (scan_and_extract store st now1).1 = [] ∧
       (scan_and_extract store st now1).2 = st)) := by
  have hdis : ∀ h ∈ (_load_last_sync st).extracted,
      h ∉ new_backupsOf (scanStore store (_load_last_sync st).extracted) := by
    intro h hmem hcontra
    rcases mem_new_backupsOf.mp hcontra with ⟨it, hit, hst, hsha⟩
    have hnr := scan_unskipped_not_recorded hit (by simp [hst])
    rw [hsha] at hnr
    exact hnr hmem
  have hnb2 : new_backupsOf (scanStore store
      (_load_last_sync (scan_and_extract store st now1).2).extracted) = [] := by
    have h1 : ∀ a ∈ (_load_last_sync st).extracted,
        a ∈ (_load_last_sync (scan_and_extract store st now1).2).extracted := by
      intro a ha
      rw [load_after_scan]
      exact List.mem_append_left _ ha
    have h2 : ∀ a ∈ new_backupsOf (scanStore store (_load_last_sync st).extracted),
        a ∈ (_load_last_sync (scan_and_extract store st now1).2).extracted := by
      intro a ha
      rw [load_after_scan]
      exact List.mem_append_right _ ha
    exact scanStore_no_new h1 h2
  refine ⟨hdis, ⟨hnb2, ?_⟩, ?_, ?_⟩
  · rw [scan_and_extract_state store (scan_and_extract store st now1).2 now2, hnb2]
    simp
  · intro hndS hndL
    have hnb_nodup : (new_backupsOf (scanStore store
        (_load_last_sync st).extracted)).Nodup := nb_scanStore_nodup hndS
    have happ := load_after_scan store st now1
    have hnodup2 : (_load_last_sync (scan_and_extract store st now1).2).extracted.Nodup := by
      rw [happ]
      exact List.nodup_append.mpr ⟨hndL, hnb_nodup, fun a ha hb => hdis a ha hb⟩
    refine ⟨hnodup2, ?_⟩
    intro h hmem
    apply List.count_eq_one_of_mem hnodup2
    rw [happ]
    exact List.mem_append_right _ hmem
  · intro hall
    have hnb : new_backupsOf (scanStore store (_load_last_sync st).extracted) = [] :=
      scanStore_no_new (fun a ha => ha) (fun a ha => hall a (nb_scanStore_subset ha))
    refine ⟨hnb, ?_⟩
    rw [scan_and_extract_state store st now1, hnb]
    simp

/-- C1 witness: a store with one manifest whose hash h1 is already in
the ledger; the scan extracts nothing and returns the ledger file
unchanged. -/
theorem c1_extraction_idempotent_witness :
    new_backupsOf (scan_and_extract c1wstore c1wstate "t").1 = [] ∧
    (scan_and_extract c1wstore c1wstate "t").2 = c1wstate :=
  (c1_extraction_idempotent c1wstore c1wstate "t" "t2").2.2.2 (by decide)

/-- C1 counterexample: two manifests carrying the same hash h in one
pass are both extracted and the ledger afterwards records h twice, so
the ledger does not contain each extracted hash exactly once. -/
theorem c1_counterexample :
    new_backupsOf (scan_and_extract c1store none "t").1 = ["h", "h"] ∧
    (_load_last_sync (scan_and_extract c1store none "t").2).extracted.count "h" = 2 :=
  ⟨rfl, rfl⟩

/-- C2 amended: a manifest failing verification is skipped in the
current pass: a verification_failed record is logged and it is not
extracted. Provided the manifests of the store declare pairwise
distinct content hashes, its hash is also not recorded in the ledger,
so every subsequent pass hands the very same manifest to the verifier
again rather than skipping it, until the mismatch is resolved. The
proviso is necessary: when another manifest declaring the same hash
verifies successfully in the pass, that hash is recorded, and the next
pass skips the failed manifest through the ledger check before the
verifier runs. -/
theorem c2_failed_manifest_reverified_each_pass (store : Store) (st : Option SyncState)
    (now1 now2 : String) (it : ScanItem)
    (hnd : (storeHashes store).Nodup)
    (hit : it ∈ (scan_and_extract store st now1).1)
    (hf : it.status = ItemStatus.verifyFailed) :
    AuditEvent.verification_failed it.manifest.filename it.manifest.sha256 ∈
      scanEvents (scan_and_extract store st now1).1 ∧
    it.manifest.sha256 ∉ new_backupsOf (scan_and_extract store st now1).1 ∧
    it ∈ (scan_and_extract store (scan_and_extract store st now1).2 now2).1 ∧
    it.manifest ∈ verifiedManifests
      (scan_and_extract store (scan_and_extract store st now1).2 now2).1 := by
  have hit2 : it ∈ scanStore store (_load_last_sync st).extracted := hit
  have hne : it.status ≠ ItemStatus.extractedNow := by simp [hf]
  have hnb := nb_scanStore_not_mem hnd hit2 hne
  have hnr := scan_unskipped_not_recorded hit2 (by simp [hf])
  have hm2 : it.manifest.sha256 ∉
      (_load_last_sync (scan_and_extract store st now1).2).extracted := by
    rw [load_after_scan]
    intro hx
    rcases List.mem_append.mp hx with hx | hx
    · exact hnr hx
    · exact hnb hx
  have hmem2 : it ∈ scanStore store
      (_load_last_sync (scan_and_extract store st now1).2).extracted := by
    rcases mem_scanStore.mp hit2 with hin | hin | hin
    · exact mem_scanStore.mpr (Or.inl (scanDir_reverify hin hf hm2))
    · exact mem_scanStore.mpr (Or.inr (Or.inl (scanDir_reverify hin hf hm2)))
    · exact mem_scanStore.mpr (Or.inr (Or.inr (scanDir_reverify hin hf hm2)))
  refine ⟨verification_failed_mem_scanEvents hit2 hf, hnb, hmem2, ?_⟩
  exact mem_verifiedManifests.mpr ⟨it, hmem2, by simp [hf], rfl⟩

/-- C2 witness: the size-mismatched manifest of c2store fails in pass
one, is not extracted, and pass two verifies it again. -/
theorem c2_failed_manifest_reverified_each_pass_witness :
    AuditEvent.verification_failed c2item.manifest.filename c2item.manifest.sha256 ∈
      scanEvents (scan_and_extract c2store none "t1").1 ∧
    c2item.manifest.sha256 ∉ new_backupsOf (scan_and_extract c2store none "t1").1 ∧
    c2item ∈ (scan_and_extract c2store (scan_and_extract c2store none "t1").2 "t2").1 ∧
    c2item.manifest ∈ verifiedManifests
      (scan_and_extract c2store (scan_and_extract c2store none "t1").2 "t2").1 :=
  c2_failed_manifest_reverified_each_pass c2store none "t1" "t2" c2item
    (by decide) (by decide) (by decide)

/-- C2 counterexample: the manifest fails verification in the first
pass, yet the second pass over the same store hands it to the verifier
again, contradicting the claim that a failed manifest is never
re-verified by a later pass. -/
theorem c2_counterexample :
    (scan_and_extract c2store none "t1").1 = [c2item] ∧
    c2item.status = ItemStatus.verifyFailed ∧
    c2item.manifest ∈ verifiedManifests
      (scan_and_extract c2store (scan_and_extract c2store none "t1").2 "t2").1 := by
  refine ⟨rfl, rfl, ?_⟩
  decide

end BackupSystem
